import Mathlib

/-!
Verification of the ISF pricing workflow (dynamic_pricing.py,
inshape_pricing_formatter.py, split_club_files.py).

Documents and CSV cells are modelled as lists of characters (`Str`); the
Python string operations used by the source (slicing, `find`, `strip`,
`lower`, `in`, `replace`, `re` searches with the concrete patterns of the
source) are embedded as executable functions on `Str`.  Functions are
written with structural recursion (a fuel argument bounded by the string
length where the scan skips more than one character) so that every
definition evaluates by kernel reduction.
-/

set_option maxRecDepth 10000

abbrev Str := List Char

/-- Python whitespace class as matched by the `str.strip()` and the regex
class used in the source (space, tab, newline, carriage return, vertical
tab, form feed). -/
def isSpace (c : Char) : Bool :=
  c = ' ' || c = '\t' || c = '\n' || c = '\r' || c = '\x0b' || c = '\x0c'

/-- Python digit class (the source only meets ASCII digits). -/
def isDigit (c : Char) : Bool :=
  '0' ≤ c && c ≤ '9'

/-- The ASCII lower-case table: Python `str.lower()` restricted to the
characters this data ever holds. -/
def lowerPairs : List (Char × Char) :=
  [('A', 'a'), ('B', 'b'), ('C', 'c'), ('D', 'd'), ('E', 'e'), ('F', 'f'),
   ('G', 'g'), ('H', 'h'), ('I', 'i'), ('J', 'j'), ('K', 'k'), ('L', 'l'),
   ('M', 'm'), ('N', 'n'), ('O', 'o'), ('P', 'p'), ('Q', 'q'), ('R', 'r'),
   ('S', 's'), ('T', 't'), ('U', 'u'), ('V', 'v'), ('W', 'w'), ('X', 'x'),
   ('Y', 'y'), ('Z', 'z')]

def pyLower (c : Char) : Char :=
  match lowerPairs.find? (fun p => p.1 = c) with
  | some p => p.2
  | none => c

def toLowerStr (s : Str) : Str := s.map pyLower

/-- Python slice `s[a:b]` for non-negative clamped bounds. -/
def sl (s : Str) (a b : Nat) : Str := (s.take b).drop a

/-- Python `s.lstrip()` on whitespace. -/
def lstrip (s : Str) : Str := s.dropWhile isSpace

/-- Python `s.rstrip()` on whitespace. -/
def rstrip (s : Str) : Str := (s.reverse.dropWhile isSpace).reverse

/-- Python `s.strip()`. -/
def pyStrip (s : Str) : Str := rstrip (lstrip s)

/-- Python `x in s` for strings: `x` occurs as a contiguous substring. -/
def containsSub (x : Str) : Str → Bool
  | [] => x.isPrefixOf []
  | c :: t => x.isPrefixOf (c :: t) || containsSub x t

/-- Index of the first occurrence of `x` at or after the front of `s`
(Python `s.find(x)` restricted to the suffix handed in). -/
def findAt (x : Str) : Str → Option Nat
  | [] => if x.isPrefixOf [] then some 0 else none
  | c :: t =>
    if x.isPrefixOf (c :: t) then some 0
    else (findAt x t).map (· + 1)

/-- Python `s.find(x, start)` (absolute index, `none` for -1). -/
def pyFind (x s : Str) (start : Nat) : Option Nat :=
  if start ≤ s.length then (findAt x (s.drop start)).map (· + start) else none

/-- Length of the maximal whitespace run at the front of `s`. -/
def wsRun : Str → Nat
  | [] => 0
  | c :: t => if isSpace c then wsRun t + 1 else 0

/-- Length of the maximal digit run at the front of `s`. -/
def digRun : Str → Nat
  | [] => 0
  | c :: t => if isDigit c then digRun t + 1 else 0

/-!
NameNormalizer: `normalize_club_name` (dynamic_pricing.py lines 9-27).
-/

/-- First step of `normalize_club_name`: the single substitution of
`re.sub(r'^(CFF|In-Shape):\s*', '', name, flags=re.IGNORECASE)` — the
pattern is anchored at the start, so at most one match is removed. -/
def stripSrcTag (s : Str) : Str :=
  if ("cff:".data).isPrefixOf (toLowerStr s) then (s.drop 4).dropWhile isSpace
  else if ("in-shape:".data).isPrefixOf (toLowerStr s) then (s.drop 9).dropWhile isSpace
  else s

/-- Length of a match of `\s+WORD\s+\d+` at the front of `s`, if any (the
quantifiers are effectively deterministic here because `WORD` and digits
start with non-whitespace characters). -/
def zipMatchLen (w s : Str) : Option Nat :=
  let r1 := wsRun s
  if r1 = 0 then none
  else
    let s1 := s.drop r1
    if w.isPrefixOf s1 then
      let s2 := s1.drop w.length
      let r2 := wsRun s2
      if r2 = 0 then none
      else
        let d := digRun (s2.drop r2)
        if d = 0 then none else some (r1 + w.length + r2 + d)
    else none

/-- One left-to-right pass of `re.sub(r'\s+WORD\s+\d+', '', s)`: every
non-overlapping leftmost match is removed, scanning resumes after each
match.  `fuel` bounds the recursion; `fuel = s.length` always suffices
since each step consumes at least one character. -/
def subAllF (w : Str) : Nat → Str → Str
  | 0, s => s
  | _ + 1, [] => []
  | f + 1, c :: t =>
    match zipMatchLen w (c :: t) with
    | some n => subAllF w f (t.drop (n - 1))
    | none => c :: subAllF w f t

def subAll (w s : Str) : Str := subAllF w s.length s

/-- Scanner for `re.sub(r'\s+', ' ', s)`: each maximal whitespace run is
replaced by a single space.  `pending = true` means the previous character
was part of a run whose single space has already been emitted. -/
def collapseGo (pending : Bool) : Str → Str
  | [] => []
  | c :: t =>
    if isSpace c then
      if pending then collapseGo true t else ' ' :: collapseGo true t
    else c :: collapseGo false t

/-- The source's `normalize_club_name` (dynamic_pricing.py lines 9-27):
strip a `CFF:`/`In-Shape:` tag, lower-case, turn underscores and hyphens
into spaces, delete `\s+california\s+\d+` and `\s+ca\s+\d+` matches,
collapse whitespace runs and strip. -/
def normalize_club_name (s : Str) : Str :=
  let a := stripSrcTag s
  let b := ((toLowerStr a).map (fun c => if c = '_' then ' ' else c)).map
    (fun c => if c = '-' then ' ' else c)
  let c := subAll ("california".data) b
  let d := subAll ("ca".data) c
  pyStrip (collapseGo false d)
/-!
Claim C5: idempotence of `normalize_club_name`.
-/

theorem pyLower_pyLower (c : Char) : pyLower (pyLower c) = pyLower c := by
  have key : ∀ p ∈ lowerPairs, lowerPairs.find? (fun q => q.1 = p.2) = none := by decide
  cases h : lowerPairs.find? (fun p => p.1 = c) with
  | none =>
    have hc : pyLower c = c := by rw [pyLower, h]
    rw [hc]; exact hc
  | some p =>
    have hc : pyLower c = p.2 := by rw [pyLower, h]
    rw [hc, pyLower, key p (List.mem_of_find?_eq_some h)]

theorem mem_subAllF {w : Str} {c : Char} :
    ∀ (f : Nat) (s : Str), c ∈ subAllF w f s → c ∈ s := by
  intro f
  induction f with
  | zero => intro s h; exact h
  | succ n ih =>
    intro s h
    match s with
    | [] => simp [subAllF] at h
    | a :: t =>
      rw [subAllF] at h
      cases hz : zipMatchLen w (a :: t) with
      | some m =>
        rw [hz] at h
        exact List.mem_cons_of_mem a (List.drop_subset _ _ (ih _ h))
      | none =>
        rw [hz] at h
        rcases List.mem_cons.1 h with h | h
        · exact h ▸ List.mem_cons_self a t
        · exact List.mem_cons_of_mem a (ih _ h)

theorem mem_subAll {w s : Str} {c : Char} (h : c ∈ subAll w s) : c ∈ s :=
  mem_subAllF _ _ h

theorem mem_collapseGo {c : Char} :
    ∀ (s : Str) (b : Bool), c ∈ collapseGo b s → c = ' ' ∨ c ∈ s := by
  intro s
  induction s with
  | nil => intro b h; simp [collapseGo] at h
  | cons a t ih =>
    intro b h
    rw [collapseGo] at h
    by_cases ha : isSpace a = true
    · rw [if_pos ha] at h
      cases b with
      | true =>
        simp only [if_pos rfl] at h
        rcases ih true h with h | h
        · exact Or.inl h
        · exact Or.inr (List.mem_cons_of_mem a h)
      | false =>
        simp only [Bool.false_eq_true, if_neg] at h
        rcases List.mem_cons.1 h with h | h
        · exact Or.inl h
        · rcases ih true h with h | h
          · exact Or.inl h
          · exact Or.inr (List.mem_cons_of_mem a h)
    · rw [if_neg ha] at h
      rcases List.mem_cons.1 h with h | h
      · exact Or.inr (h ▸ List.mem_cons_self a t)
      · rcases ih false h with h | h
        · exact Or.inl h
        · exact Or.inr (List.mem_cons_of_mem a h)

theorem mem_rstrip {c : Char} {s : Str} (h : c ∈ rstrip s) : c ∈ s := by
  rw [rstrip, List.mem_reverse] at h
  exact List.mem_reverse.1 ((List.dropWhile_sublist _).subset h)

theorem mem_pyStrip {c : Char} {s : Str} (h : c ∈ pyStrip s) : c ∈ s :=
  (List.dropWhile_sublist _).subset (mem_rstrip h)

theorem mapIdOn {α : Type} {f : α → α} :
    ∀ {s : List α}, (∀ c ∈ s, f c = c) → s.map f = s := by
  intro s
  induction s with
  | nil => intro _; rfl
  | cons a t ih =>
    intro h
    rw [List.map_cons, h a (List.mem_cons_self a t),
      ih (fun c hc => h c (List.mem_cons_of_mem a hc))]

/-- Every character of a normalized name is fixed by lower-casing and is
neither an underscore nor a hyphen. -/
theorem normChar (x : Str) :
    ∀ c ∈ normalize_club_name x, pyLower c = c ∧ c ≠ '_' ∧ c ≠ '-' := by
  intro c hc
  have hsp : pyLower ' ' = ' ' ∧ (' ' : Char) ≠ '_' ∧ (' ' : Char) ≠ '-' := by decide
  simp only [normalize_club_name] at hc
  rcases mem_collapseGo _ _ (mem_pyStrip hc) with h | h
  · exact h ▸ hsp
  · rcases List.mem_map.1 (mem_subAll (mem_subAll h)) with ⟨d1, hd1, rfl⟩
    by_cases h1 : d1 = '-'
    · rw [if_pos h1]; exact hsp
    · rw [if_neg h1]
      rcases List.mem_map.1 hd1 with ⟨d0, hd0, rfl⟩
      by_cases h0 : d0 = '_'
      · rw [if_pos h0]; exact hsp
      · rw [if_neg h0]
        rcases List.mem_map.1 hd0 with ⟨d, _, rfl⟩
        refine ⟨pyLower_pyLower d, h0, ?_⟩
        rw [if_neg h0] at h1
        exact h1
/-- Head-of-list whitespace test. -/
def leadWs : Str → Bool
  | [] => false
  | c :: _ => isSpace c

/-- Canonical whitespace shape after run collapapse: every whitespace
character is a single space not followed by whitespace. -/
def noWsRun : Str → Bool
  | [] => true
  | c :: t => (!(isSpace c) || (c == ' ' && !(leadWs t))) && noWsRun t

theorem dropWhile_head_false {α : Type} {p : α → Bool} :
    ∀ {s : List α} {c : α} {t : List α}, s.dropWhile p = c :: t → p c = false := by
  intro s
  induction s with
  | nil => intro c t h; simp [List.dropWhile] at h
  | cons a s ih =>
    intro c t h
    rw [List.dropWhile_cons] at h
    by_cases hp : p a = true
    · rw [if_pos hp] at h; exact ih h
    · rw [if_neg hp] at h
      cases h
      exact Bool.not_eq_true _ ▸ (by simpa using hp)

theorem collapseGo_true_leadWs : ∀ t : Str, leadWs (collapseGo true t) = false := by
  intro t
  induction t with
  | nil => rfl
  | cons c t ih =>
    rw [collapseGo]
    by_cases hc : isSpace c = true
    · rw [if_pos hc, if_pos rfl]; exact ih
    · rw [if_neg hc]; simpa [leadWs] using hc

theorem noWsRun_collapseGo : ∀ (s : Str) (b : Bool), noWsRun (collapseGo b s) = true := by
  intro s
  induction s with
  | nil => intro b; rfl
  | cons c t ih =>
    intro b
    rw [collapseGo]
    by_cases hc : isSpace c = true
    · rw [if_pos hc]
      cases b with
      | true => simpa using ih true
      | false =>
        simp only [Bool.false_eq_true, if_neg]
        simp only [noWsRun]
        simp [collapseGo_true_leadWs t, ih true]
    · rw [if_neg hc]
      simp only [noWsRun]
      simp [hc, ih false]

theorem collapseGo_fixed : ∀ s : Str, noWsRun s = true → collapseGo false s = s := by
  intro s
  induction s with
  | nil => intro _; rfl
  | cons c t ih =>
    intro h
    rw [noWsRun, Bool.and_eq_true] at h
    obtain ⟨hcond, ht⟩ := h
    by_cases hc : isSpace c = true
    · rw [hc] at hcond
      simp only [Bool.not_true, Bool.false_or, Bool.and_eq_true, beq_iff_eq,
        Bool.not_eq_true] at hcond
      obtain ⟨hsp, hlead⟩ := hcond
      subst hsp
      rw [collapseGo, if_pos hc]
      match t, ht, hlead with
      | [], _, _ => rfl
      | d :: t2, ht, hlead =>
        have hd : isSpace d = false := by simpa [leadWs] using hlead
        have hdneg : ¬ (isSpace d = true) := by simp [hd]
        have h2 := ih ht
        rw [collapseGo, if_neg hdneg] at h2
        rw [collapseGo, if_neg hdneg]
        injection h2 with h2a h2b
        rw [h2b]
        simp
    · rw [collapseGo, if_neg hc, ih ht]

theorem exists_rstrip_append (s : Str) : ∃ w, s = rstrip s ++ w := by
  refine ⟨(s.reverse.takeWhile isSpace).reverse, ?_⟩
  rw [rstrip, ← List.reverse_append, List.takeWhile_append_dropWhile, List.reverse_reverse]

theorem noWsRun_append_right :
    ∀ {a b : Str}, noWsRun (a ++ b) = true → noWsRun b = true := by
  intro a
  induction a with
  | nil => intro b h; exact h
  | cons c t ih =>
    intro b h
    rw [List.cons_append, noWsRun, Bool.and_eq_true] at h
    exact ih h.2

theorem noWsRun_append_left :
    ∀ {a b : Str}, noWsRun (a ++ b) = true → noWsRun a = true := by
  intro a
  induction a with
  | nil => intro b _; rfl
  | cons c t ih =>
    intro b h
    rw [List.cons_append, noWsRun, Bool.and_eq_true] at h
    obtain ⟨hcond, ht⟩ := h
    rw [noWsRun, Bool.and_eq_true]
    refine ⟨?_, ih ht⟩
    match t, hcond with
    | [], hcond =>
      revert hcond
      simp only [leadWs, List.nil_append]
      cases hsp : isSpace c <;> cases hb : (c == ' ') <;> simp_all [leadWs]
    | d :: t2, hcond => exact hcond

theorem noWsRun_lstrip {s : Str} (h : noWsRun s = true) : noWsRun (lstrip s) = true := by
  have := List.takeWhile_append_dropWhile (p := isSpace) (l := s)
  rw [lstrip]
  exact noWsRun_append_right (a := s.takeWhile isSpace) (this.symm ▸ h)

theorem noWsRun_rstrip {s : Str} (h : noWsRun s = true) : noWsRun (rstrip s) = true := by
  obtain ⟨w, hw⟩ := exists_rstrip_append s
  exact noWsRun_append_left (hw ▸ h)

theorem dropWhile_idem {α : Type} {p : α → Bool} (s : List α) :
    (s.dropWhile p).dropWhile p = s.dropWhile p := by
  cases h : s.dropWhile p with
  | nil => rfl
  | cons c t =>
    rw [List.dropWhile_cons, if_neg (by simp [dropWhile_head_false h])]

theorem rstrip_idem (s : Str) : rstrip (rstrip s) = rstrip s := by
  rw [rstrip, rstrip, List.reverse_reverse, dropWhile_idem]

theorem lstrip_rstrip_lstrip (s : Str) :
    lstrip (rstrip (lstrip s)) = rstrip (lstrip s) := by
  cases h : rstrip (lstrip s) with
  | nil => rfl
  | cons c t =>
    obtain ⟨w, hw⟩ := exists_rstrip_append (lstrip s)
    rw [h] at hw
    have hc : isSpace c = false :=
      dropWhile_head_false (p := isSpace) (s := s) (t := t ++ w)
        (by rw [← lstrip, hw, List.cons_append])
    rw [lstrip, List.dropWhile_cons, if_neg (by simp [hc])]

theorem pyStrip_idem (s : Str) : pyStrip (pyStrip s) = pyStrip s := by
  rw [pyStrip, pyStrip, lstrip_rstrip_lstrip, rstrip_idem]

theorem noWsRun_pyStrip {s : Str} (h : noWsRun s = true) : noWsRun (pyStrip s) = true :=
  noWsRun_rstrip (noWsRun_lstrip h)

/-- Claim C5 (corrected): `normalize_club_name` is idempotent on every
input whose normalized form is a fixed point of the tag-stripping step and
of the two state-plus-zip removal steps; the remaining stages
(lower-casing, underscore and hyphen replacement, whitespace collapsing
and stripping) are always fixed on a normalized name. -/
theorem claim_C5 (x : Str)
    (h1 : stripSrcTag (normalize_club_name x) = normalize_club_name x)
    (h2 : subAll ("california".data) (normalize_club_name x) = normalize_club_name x)
    (h3 : subAll ("ca".data) (normalize_club_name x) = normalize_club_name x) :
    normalize_club_name (normalize_club_name x) = normalize_club_name x := by
  have hlow : toLowerStr (normalize_club_name x) = normalize_club_name x :=
    mapIdOn (fun c hc => (normChar x c hc).1)
  have hm1 : (normalize_club_name x).map (fun c => if c = '_' then ' ' else c)
      = normalize_club_name x :=
    mapIdOn (fun c hc => if_neg (normChar x c hc).2.1)
  have hm2 : (normalize_club_name x).map (fun c => if c = '-' then ' ' else c)
      = normalize_club_name x :=
    mapIdOn (fun c hc => if_neg (normChar x c hc).2.2)
  have hnw : noWsRun (normalize_club_name x) = true := by
    rw [normalize_club_name]
    exact noWsRun_pyStrip (noWsRun_collapseGo _ false)
  have hcoll : collapseGo false (normalize_club_name x) = normalize_club_name x :=
    collapseGo_fixed _ hnw
  have hstrip : pyStrip (normalize_club_name x) = normalize_club_name x := by
    conv_lhs => rw [normalize_club_name]
    rw [pyStrip_idem, normalize_club_name]
  conv_lhs => rw [normalize_club_name]
  rw [h1, hlow, hm1, hm2, h2, h3, hcoll, hstrip]

/-- Counterexample to claim C5 as stated: the tag-stripping substitution
can expose a second `cff:` tag, so a second normalization strips further. -/
theorem claim_C5_cex :
    normalize_club_name (normalize_club_name ("cff:cff:a".data))
      ≠ normalize_club_name ("cff:cff:a".data) := by decide

/-- Witness for claim C5 at a concrete input. -/
theorem claim_C5_witness :
    normalize_club_name (normalize_club_name ("CFF: Rocklin_East".data))
      = normalize_club_name ("CFF: Rocklin_East".data) :=
  claim_C5 _ (by decide) (by decide) (by decide)
/-!
PricingTableBuilder: `read_pricing_content_from_csv` (dynamic_pricing.py
lines 63-170).  The parsed CSV is handed in as a list of rows (each row a
list of cell strings); the first row is the header, as consumed by
`next(reader)`.
-/

abbrev Row := List Str

/-- Python `row[i].strip() if len(row) > i else ""`. -/
def stripCellOr (r : Row) (i : Nat) : Str :=
  if i < r.length then pyStrip (r.getD i []) else []

/-- The fixed fee-type vocabulary, in the fixed order of the source. -/
def fee_types : List Str :=
  [("Member Type".data), ("Enrollment 12 M".data), ("Main Dues 12M".data),
   ("Enrollment MTM".data), ("Main Dues MTM".data), ("Add Adult".data),
   ("Add Youth".data), ("Add Child".data), ("Preferred".data),
   ("Elevate".data), ("Non-EFT Fee".data), ("Credit Card Service Fee".data)]

/-- Header scan for the anchor column: the first column whose text contains
`Lifestyle Local Network` or `Lifestyle Network Plus` as a substring. -/
def findLifestyleColFrom : List Str → Nat → Option Nat
  | [], _ => none
  | c :: t, i =>
    if containsSub ("Lifestyle Local Network".data) c
        || containsSub ("Lifestyle Network Plus".data) c then some i
    else findLifestyleColFrom t (i + 1)

def findLifestyleCol (header : List Str) : Option Nat :=
  findLifestyleColFrom header 0

/-- Columns after the anchor column with a non-empty stripped header text,
paired with their index (`additional_columns` in the source). -/
def additionalColumns (header : List Str) (i : Nat) : List (Nat × Str) :=
  header.enum.filterMap
    (fun p => if i + 1 ≤ p.1 ∧ pyStrip p.2 ≠ [] then some (p.1, pyStrip p.2) else none)

/-- The rows whose normalized club-name cell (column 1) equals the target
identity; rows shorter than two cells are skipped. -/
def clubRows (rows : List Row) (target : Str) : List Row :=
  rows.filter (fun r => 1 < r.length && (normalize_club_name (pyStrip (r.getD 1 [])) == target))

/-- First row for a fee type (column 6), first-match-wins. -/
def findFeeRow (crs : List Row) (ft : Str) : Option Row :=
  crs.find? (fun r => 6 < r.length && (pyStrip (r.getD 6 []) == ft))

/-- Python `value or 'Not available'` on an already-stripped cell value:
only the empty string is replaced by the sentinel. -/
def dispOr (v : Str) : Str := if v = [] then ("Not available".data) else v

/-- Python `s.replace(old, rep)`: every non-overlapping leftmost occurrence
is replaced, scanning resumes after the replacement (never inside it).
`fuel = s.length` always suffices.  The `old = []` case (Python interleaves)
never arises in the source's calls and is left as the identity. -/
def pyReplaceAllF (old rep : Str) : Nat → Str → Str
  | 0, s => s
  | _ + 1, [] => []
  | f + 1, c :: t =>
    if !old.isEmpty && old.isPrefixOf (c :: t) then
      rep ++ pyReplaceAllF old rep f (t.drop (old.length - 1))
    else c :: pyReplaceAllF old rep f t

def pyReplaceAll (old rep s : Str) : Str := pyReplaceAllF old rep s.length s

/-- One extra-tier part of a pricing line: skipped when the row is too
short or the stripped value is empty, `-` or `$-`; otherwise rendered as
`<cleaned header>: <value>` with the ` - NFC` decoration removed. -/
def extraPart (r : Row) (p : Nat × Str) : Option Str :=
  if p.1 < r.length then
    let v := pyStrip (r.getD p.1 [])
    if v ≠ [] ∧ v ∉ [([] : Str), ("-".data), ("$-".data)] then
      some (pyStrip (pyReplaceAll (" - NFC".data) [] p.2) ++ (": ".data) ++ v)
    else none
  else none

/-- One pricing line for a matched fee row (the f-string of line 140 plus
the additional-column parts of lines 142-155). -/
def formatFeeLine (addCols : List (Nat × Str)) (ft : Str) (r : Row) : Str :=
  let base := ft ++ (": Local Network: ".data) ++ dispOr (stripCellOr r 15)
    ++ (" | Fitness Plus Local Network: ".data) ++ dispOr (stripCellOr r 16)
    ++ (" | Lifestyle Network Plus: ".data) ++ dispOr (stripCellOr r 17)
  let parts := addCols.filterMap (extraPart r)
  if parts = [] then base
  else base ++ (" | ".data) ++ List.intercalate (" | ".data) parts

/-- The source's `read_pricing_content_from_csv`: `none` models the `None`
returns (missing anchor column, no matching rows, or an empty file whose
`next(reader)` raises). -/
def read_pricing_content_from_csv (csv : List Row) (club_name : Str) :
    Option (Str × List Str) :=
  match csv with
  | [] => none
  | header :: rows =>
    match findLifestyleCol header with
    | none => none
    | some i =>
      let addCols := if i + 1 < header.length then additionalColumns header i else []
      let crs := clubRows rows (normalize_club_name club_name)
      if crs = [] then none
      else
        let lines := fee_types.filterMap
          (fun ft => (findFeeRow crs ft).map (formatFeeLine addCols ft))
        some (List.intercalate ("\n".data) lines, addCols.map (fun p => p.2))

/-- Claim C6: on a CSV with a header row, the builder fails exactly when
the anchor column is missing from the header or no data row matches the
normalized club name; with the anchor present and at least one matching
row it returns a pricing result. -/
theorem claim_C6 (header : Row) (rows : List Row) (club_name : Str) :
    read_pricing_content_from_csv (header :: rows) club_name = none
      ↔ (findLifestyleCol header = none
          ∨ clubRows rows (normalize_club_name club_name) = []) := by
  cases hcol : findLifestyleCol header with
  | none => simp [read_pricing_content_from_csv, hcol]
  | some i =>
    by_cases hcr : clubRows rows (normalize_club_name club_name) = [] <;>
      simp [read_pricing_content_from_csv, hcol, hcr]

/-- The concrete CSV of the C3 counterexample: the anchor text sits in
column 17 and the single data row holds `-` in the Local Network column. -/
def claimC3csv : List Row :=
  [[[], [], [], [], [], [], [], [], [], [], [], [], [], [], [], [], [],
    ("Lifestyle Local Network".data)],
   [("1".data), ("Club X".data), [], [], [], [], ("Main Dues MTM".data),
    [], [], [], [], [], [], [], [], ("-".data), ("$10".data), ("$20".data)]]

/-- Counterexample to claim C3 as stated: a matched fee row with a core
tier cell `-` is rendered verbatim, not as the `Not available` sentinel
(the output contains no sentinel at all). -/
theorem claim_C3_cex :
    (read_pricing_content_from_csv claimC3csv ("Club X".data)).map
      (fun p => containsSub ("Not available".data) p.1) = some false := by decide

/-- Claim C3 (corrected): in `read_pricing_content_from_csv` a core tier
cell is rendered as `Not available` exactly when its stripped value is
empty (`-` and `$-` are rendered verbatim, shown here for the Local
Network column); extra-tier columns whose stripped value is empty, `-` or
`$-` are omitted entirely. -/
theorem claim_C3 (addCols : List (Nat × Str)) (ft : Str) (r : Row) :
    (stripCellOr r 15 = [] →
      ∃ rest, formatFeeLine addCols ft r
        = ft ++ (": Local Network: Not available | Fitness Plus Local Network: ".data) ++ rest)
    ∧ (stripCellOr r 15 = ("-".data) →
      ∃ rest, formatFeeLine addCols ft r
        = ft ++ (": Local Network: - | Fitness Plus Local Network: ".data) ++ rest)
    ∧ (∀ i name, pyStrip (r.getD i []) ∈ [([] : Str), ("-".data), ("$-".data)] →
        extraPart r (i, name) = none) := by
  refine ⟨?_, ?_, ?_⟩
  · intro h
    simp only [formatFeeLine, h]
    by_cases hp : addCols.filterMap (extraPart r) = []
    · refine ⟨dispOr (stripCellOr r 16) ++ (" | Lifestyle Network Plus: ".data)
        ++ dispOr (stripCellOr r 17), ?_⟩
      rw [if_pos hp]
      simp only [dispOr, if_pos rfl, List.append_assoc]
      norm_num
    · refine ⟨dispOr (stripCellOr r 16) ++ (" | Lifestyle Network Plus: ".data)
        ++ dispOr (stripCellOr r 17) ++ (" | ".data)
        ++ List.intercalate (" | ".data) (addCols.filterMap (extraPart r)), ?_⟩
      rw [if_neg hp]
      simp only [dispOr, if_pos rfl, List.append_assoc]
      norm_num
  · intro h
    simp only [formatFeeLine, h]
    by_cases hp : addCols.filterMap (extraPart r) = []
    · refine ⟨dispOr (stripCellOr r 16) ++ (" | Lifestyle Network Plus: ".data)
        ++ dispOr (stripCellOr r 17), ?_⟩
      rw [if_pos hp]
      simp only [dispOr, List.append_assoc]
      norm_num
    · refine ⟨dispOr (stripCellOr r 16) ++ (" | Lifestyle Network Plus: ".data)
        ++ dispOr (stripCellOr r 17) ++ (" | ".data)
        ++ List.intercalate (" | ".data) (addCols.filterMap (extraPart r)), ?_⟩
      rw [if_neg hp]
      simp only [dispOr, List.append_assoc]
      norm_num
  · intro i name h
    rw [extraPart]
    by_cases hi : i < r.length
    · rw [if_pos hi]
      simp only []
      rw [if_neg]
      intro hcon
      exact hcon.2 h
    · rw [if_neg hi]
/-!
Legacy fallback extractor: `read_pricing_content_from_txt`
(dynamic_pricing.py lines 173-189), regex
`Member Type:.*?(?=\n\s*$|\Z)` with `re.DOTALL` and then `.strip()`.
-/

/-- The lookahead `\n\s*$|\Z` (no MULTILINE) holds at a position exactly
when the remaining text is empty or is a newline followed by whitespace
only (`$` matches at the very end or before a final newline, and `\s*`
may consume newlines). -/
def txtStop : Str → Bool
  | [] => true
  | c :: t => c = '\n' && t.all isSpace

/-- Offset of the first position satisfying `txtStop` (the minimal
extension of the lazy `.*?`); the end of the string always qualifies. -/
def scanStop : Str → Nat
  | [] => 0
  | c :: t => if txtStop (c :: t) then 0 else scanStop t + 1

/-- The source's `read_pricing_content_from_txt`: search for the pattern,
return the stripped match, `none` when the anchor is absent. -/
def read_pricing_content_from_txt (content : Str) : Option Str :=
  match pyFind ("Member Type:".data) content 0 with
  | none => none
  | some i =>
    some (pyStrip (sl content i (i + 12 + scanStop ((content.drop i).drop 12))))

theorem findAt_isPrefixOf {x : Str} :
    ∀ {s : Str} {i : Nat}, findAt x s = some i → x.isPrefixOf (s.drop i) = true := by
  intro s
  induction s with
  | nil =>
    intro i h
    rw [findAt] at h
    by_cases hp : x.isPrefixOf [] = true
    · rw [if_pos hp] at h
      cases h
      simpa using hp
    · rw [if_neg hp] at h
      cases h
  | cons c t ih =>
    intro i h
    rw [findAt] at h
    by_cases hp : x.isPrefixOf (c :: t) = true
    · rw [if_pos hp] at h
      cases h
      simpa using hp
    · rw [if_neg hp] at h
      cases hfa : findAt x t with
      | none => rw [hfa] at h; cases h
      | some j =>
        rw [hfa] at h
        cases h
        rw [List.drop_succ_cons]
        exact ih hfa

theorem scanStop_drop_all : ∀ v : Str, ((v.drop (scanStop v)).all isSpace) = true := by
  intro v
  induction v with
  | nil => rfl
  | cons c t ih =>
    rw [scanStop]
    by_cases hs : txtStop (c :: t) = true
    · rw [if_pos hs, List.drop_zero, List.all_cons]
      rw [txtStop, Bool.and_eq_true] at hs
      have hc : isSpace c = true := by
        have := hs.1
        simp only [decide_eq_true_eq] at this
        rw [this]
        rfl
      rw [hc, hs.2]
      rfl
    · rw [if_neg hs, List.drop_succ_cons]
      exact ih

theorem rstrip_append_ws {x w : Str} (h : w.all isSpace = true) :
    rstrip (x ++ w) = rstrip x := by
  rw [rstrip, rstrip, List.reverse_append]
  rw [List.dropWhile_append_of_pos]
  intro a ha
  rw [List.all_eq_true] at h
  exact h a (List.mem_reverse.1 ha)

/-- Claim C8 (corrected): when the text contains `Member Type:` (first
occurrence at index `i`), the extractor returns the entire rest of the
text from that index with trailing whitespace stripped; an interior blank
line does not terminate the block (the lookahead `\n\s*$` only fires when
nothing but whitespace follows). -/
theorem claim_C8 (content : Str) (i : Nat)
    (h : pyFind ("Member Type:".data) content 0 = some i) :
    read_pricing_content_from_txt content = some (rstrip (content.drop i)) := by
  have hfa : findAt ("Member Type:".data) content = some i := by
    have h2 := h
    rw [pyFind, if_pos (Nat.zero_le _), List.drop_zero] at h2
    cases hfa : findAt ("Member Type:".data) content with
    | none => rw [hfa] at h2; cases h2
    | some j =>
      rw [hfa] at h2
      simp at h2
      simp [h2]
  rw [read_pricing_content_from_txt, h]
  show some (pyStrip (sl content i (i + 12 + scanStop ((content.drop i).drop 12))))
    = some (rstrip (content.drop i))
  have hpre := findAt_isPrefixOf hfa
  rw [List.isPrefixOf_iff_prefix] at hpre
  obtain ⟨v, hv⟩ := hpre
  have hlen : ("Member Type:".data).length = 12 := by decide
  set u := content.drop i with hu
  have hvdrop : u.drop 12 = v := by
    rw [← hv]
    have h12 := List.drop_left ("Member Type:".data) v
    rw [hlen] at h12
    exact h12
  set k := scanStop (u.drop 12) with hk
  have hsl : sl content i (i + 12 + k) = u.take (12 + k) := by
    rw [sl, List.drop_take]
    congr 1
    omega
  rw [hsl]
  have htake : u.take (12 + k) = ("Member Type:".data) ++ v.take k := by
    rw [← hv, List.take_append_eq_append_take]
    congr 1
    · exact List.take_of_length_le (by rw [hlen]; omega)
    · congr 1
      rw [hlen]
      omega
  have hws : ((v.drop k).all isSpace) = true := by
    rw [← hvdrop, hk]
    exact scanStop_drop_all _
  have hrs : rstrip (u.take (12 + k)) = rstrip u := by
    rw [htake, ← hv]
    conv_rhs => rw [← List.take_append_drop k v]
    rw [← List.append_assoc]
    exact (rstrip_append_ws hws).symm
  have hlstrip : lstrip (u.take (12 + k)) = u.take (12 + k) := by
    rw [htake, List.cons_append (a := 'M')]
    rw [lstrip, List.dropWhile_cons, if_neg (by decide)]
  rw [pyStrip, hlstrip, hrs]

/-- Counterexample to claim C8 as stated: with an interior blank line the
returned block runs past it to the end of the text instead of stopping at
the blank line. -/
theorem claim_C8_cex :
    read_pricing_content_from_txt ("Member Type: A\n\nB".data)
        = some ("Member Type: A\n\nB".data)
      ∧ read_pricing_content_from_txt ("Member Type: A\n\nB".data)
        ≠ some ("Member Type: A".data) := by decide

/-- Witness for claim C8 at a concrete input. -/
theorem claim_C8_witness :
    read_pricing_content_from_txt ("x Member Type: A\n\nB \n ".data)
      = some (rstrip (("x Member Type: A\n\nB \n ".data).drop 2)) :=
  claim_C8 _ 2 (by decide)
/-!
DocumentSplicer contract A: `replace_pricing_section_in_md`
(dynamic_pricing.py lines 192-219), regex (DOTALL)
`Member Type:.*?(?:SILVER SNEAKERS|Insurance Availability):.*?(?:available|not available).*?(?:\n(?:Peer Fit|PeerFit):.*?(?:available|not available).*?)?(?=\n\n|\n\[Get Started\]|\Z)`
and then `content.replace(match.group(0), new_pricing_content)` — Python
`str.replace`, which replaces every occurrence.
-/

/-- Earliest match of `(?:SILVER SNEAKERS|Insurance Availability):` in a
suffix: offset and consumed length (the alternatives never match at the
same position, `SILVER` is tried first as in the pattern). -/
def scanLabel : Str → Option (Nat × Nat)
  | [] => none
  | c :: t =>
    if ("SILVER SNEAKERS:".data).isPrefixOf (c :: t) then some (0, 16)
    else if ("Insurance Availability:".data).isPrefixOf (c :: t) then some (0, 23)
    else (scanLabel t).map (fun p => (p.1 + 1, p.2))

/-- Earliest match of `(?:available|not available)`: at each position the
first alternative is tried first, exactly as the engine does. -/
def scanAvail : Str → Option (Nat × Nat)
  | [] => none
  | c :: t =>
    if ("available".data).isPrefixOf (c :: t) then some (0, 9)
    else if ("not available".data).isPrefixOf (c :: t) then some (0, 13)
    else (scanAvail t).map (fun p => (p.1 + 1, p.2))

/-- The lookahead `(?=\n\n|\n\[Get Started\]|\Z)`. -/
def mdStop (s : Str) : Bool :=
  ("\n\n".data).isPrefixOf s || ("\n[Get Started]".data).isPrefixOf s || s.isEmpty

/-- First offset at which `mdStop` holds (the end of the string always
qualifies, `\Z`). -/
def scanMdStop : Str → Nat
  | [] => 0
  | c :: t => if mdStop (c :: t) then 0 else scanMdStop t + 1

/-- Extension of the trailing `.*?(?:\n(?:Peer Fit|PeerFit):.*?(?:available|not available).*?)?(?=…)`:
at each position the optional group is tried first (a `?` is greedy); the
group succeeds when its label matches and an availability word occurs
later, and then the match ends at the first lookahead position after it;
otherwise the empty alternative is taken when the lookahead holds. -/
def scanTail : Str → Nat
  | [] => 0
  | c :: t =>
    if ("\nPeer Fit:".data).isPrefixOf (c :: t) then
      match scanAvail ((c :: t).drop 10) with
      | some p => 10 + p.1 + p.2 + scanMdStop ((c :: t).drop (10 + p.1 + p.2))
      | none => if mdStop (c :: t) then 0 else scanTail t + 1
    else if ("\nPeerFit:".data).isPrefixOf (c :: t) then
      match scanAvail ((c :: t).drop 9) with
      | some p => 9 + p.1 + p.2 + scanMdStop ((c :: t).drop (9 + p.1 + p.2))
      | none => if mdStop (c :: t) then 0 else scanTail t + 1
    else if mdStop (c :: t) then 0 else scanTail t + 1

/-- The span `match.group(0)` of the pricing-block pattern, if the pattern
matches.  The match starts at the first `Member Type:` occurrence (if a
label or availability word is missing after the first occurrence it is
missing after every later one, so the pattern fails outright). -/
def findPricingSpan (content : Str) : Option Str :=
  match pyFind ("Member Type:".data) content 0 with
  | none => none
  | some i =>
    let r1 := content.drop (i + 12)
    match scanLabel r1 with
    | none => none
    | some p1 =>
      let r2 := r1.drop (p1.1 + p1.2)
      match scanAvail r2 with
      | none => none
      | some p2 =>
        let r3 := r2.drop (p2.1 + p2.2)
        some ((content.drop i).take (12 + p1.1 + p1.2 + p2.1 + p2.2 + scanTail r3))

/-- The source's `replace_pricing_section_in_md` on the in-memory text:
locate the span and apply Python `str.replace` (all occurrences), `false`
with the text unchanged when the pattern is absent. -/
def replace_pricing_section_in_md (content newContent : Str) : Bool × Str :=
  match findPricingSpan content with
  | none => (false, content)
  | some span => (true, pyReplaceAll span newContent content)

/-- A document whose matched pricing span occurs twice, byte-exactly. -/
def claimC4doc : Str :=
  ("Member Type: A\nSILVER SNEAKERS: available\n\nx Member Type: A\nSILVER SNEAKERS: available\n\nend".data)

/-- Counterexample to claim C4 as stated: the splice rewrites the second,
identical occurrence of the matched span too, so the output is not the
claimed first-occurrence-only replacement. -/
theorem claim_C4_cex :
    replace_pricing_section_in_md claimC4doc ("NEW".data)
        = (true, ("NEW\n\nx NEW\n\nend".data))
      ∧ (replace_pricing_section_in_md claimC4doc ("NEW".data)).2
        ≠ ("NEW\n\nx Member Type: A\nSILVER SNEAKERS: available\n\nend".data) := by
  decide

/-- Claim C4 (corrected): the splice replaces every byte-exact occurrence
of the matched span (`str.replace` semantics), not only the first: on a
document with two identical pricing spans both are replaced, for every
replacement content. -/
theorem claim_C4 (newContent : Str) :
    replace_pricing_section_in_md claimC4doc newContent
      = (true, newContent ++ ("\n\nx ".data) ++ newContent ++ ("\n\nend".data)) := by
  have h : replace_pricing_section_in_md claimC4doc newContent
      = (true, newContent ++ (("\n\nx ".data) ++ (newContent ++ ("\n\nend".data)))) := rfl
  rw [h]
  simp [List.append_assoc]
/-!
DocumentSplicer contract B: `replace_enhancement_fee_text`
(dynamic_pricing.py lines 222-442).  Each regex of the cascade is embedded
as a deterministic scanner implementing the engine's leftmost/lazy/greedy
preferences for the concrete pattern (noted case by case).
-/

/-- The standardized replacement text of lines 235-239. -/
def newEnhancementFeeText : String :=
  "*Annual enhancement fee of $49.95 for the first member and $89.95 for all memberships with two or more persons will be billed 60 days from the join date, then every 12 months thereafter for the duration of the membership. If you choose to use a credit or debit card for your method of payment, additional $4.99 credit card fee added to your dues.\n\n*Amenities and programming vary by location. Monthly retail rebate valid on in-club purchases of drinks, snacks and shakes and excludes day passes and discounted items. Rebate not to exceed monthly dues amount. Relax & Recover available at select clubs. For guest passes, guest must be 18+ and accompany a member. One guest per visit. All access pass is one time per month and expires at the end of the month.\n\n*Reservations are required. A $2 no-show fee will be applied if reservations are not cancelled 2 hours prior."

/-- The already-current test of line 243. -/
def hasBothSignatures (content : Str) : Bool :=
  containsSub ("$49.95 for the first member".data) content
    && containsSub ("$89.95 for all memberships".data) content

/-- Replacement of the located `[start, end)` region: the canonical text
plus the preserved trailing fragment is spliced between the untouched
prefix and suffix (lines 321-322 and 429-430). -/
def spliceAt (content : Str) (s e : Nat) (preserved : Str) : Str :=
  content.take s ++ (((newEnhancementFeeText.data) ++ preserved) ++ content.drop e)

/-- Case-insensitive literal prefix test (`p` is given lower-case). -/
def ciPrefix (p s : Str) : Bool := p.isPrefixOf (toLowerStr s)

/-- The `\s*$`-with-MULTILINE condition from a position: the whitespace
run from here reaches the end of the string, or contains a newline (the
`$` can match before any newline, and `\s*` may consume newlines). -/
def tailWsOk (rest : Str) : Bool :=
  wsRun rest = rest.length || ((rest.take (wsRun rest)).any (fun c => c = '\n'))

/-- Leftmost match of `(\*\*Note:\*\*\s*)$` (MULTILINE): offset of the
match start. -/
def scanNote : Str → Option Nat
  | [] => none
  | c :: t =>
    if ("**Note:**".data).isPrefixOf (c :: t) && tailWsOk ((c :: t).drop 9) then some 0
    else (scanNote t).map (· + 1)

/-- Length of a front match of `\*\*Additional\s+Fees?:\*\*` (IGNORECASE);
the greedy `s?` tries `Fees:` before `Fee:`, and the two cannot both
match, so no backtracking arises. -/
def addlMatchLen (s : Str) : Option Nat :=
  if ciPrefix ("**additional".data) s then
    let r := wsRun (s.drop 12)
    if r = 0 then none
    else
      let s2 := s.drop (12 + r)
      if ciPrefix ("fees:**".data) s2 then some (12 + r + 7)
      else if ciPrefix ("fee:**".data) s2 then some (12 + r + 6)
      else none
  else none

/-- Leftmost match of `(\*\*Additional\s+Fees?:\*\*\s*)$` (MULTILINE and
IGNORECASE). -/
def scanAddl : Str → Option Nat
  | [] => none
  | c :: t =>
    match addlMatchLen (c :: t) with
    | some n => if tailWsOk ((c :: t).drop n) then some 0 else (scanAddl t).map (· + 1)
    | none => (scanAddl t).map (· + 1)

/-- Index of the last newline of `content[lo:hi)`, relative to the slice. -/
def lastNlIdx : Str → Option Nat
  | [] => none
  | c :: t =>
    match lastNlIdx t with
    | some j => some (j + 1)
    | none => if c = '\n' then some 0 else none

/-- Python `content.rfind('\n', lo, hi)` (absolute index, `none` for -1). -/
def rfindNl (content : Str) (lo hi : Nat) : Option Nat :=
  (lastNlIdx (sl content lo hi)).map (· + lo)

/-- The shared start-of-region search (lines 268-278 and 343-358): a
`**Note:**` label just before the anchor, else — in the legacy branch
only — an `**Additional Fees:**` label, else the start of the anchor's
line, else 50 characters back. -/
def startFrom (content : Str) (pos : Nat) (useAddl : Bool) : Nat :=
  let before := sl content (pos - 200) pos
  match scanNote before with
  | some i => pos - (before.length - i)
  | none =>
    match (if useAddl then scanAddl before else none) with
    | some i => pos - (before.length - i)
    | none =>
      match rfindNl content (pos - 200) pos with
      | some ls => ls + 1
      | none => pos - 50

/-- Consecutive literal words separated by `\s+` (case-insensitive),
matched at the front; the run before each word is maximal because the
words begin with non-whitespace. -/
def wordSeqLen : List Str → Str → Option Nat
  | [], _ => some 0
  | [w], s => if ciPrefix w s then some w.length else none
  | w :: w2 :: rest, s =>
    if ciPrefix w s then
      let r := wsRun (s.drop w.length)
      if r = 0 then none
      else (wordSeqLen (w2 :: rest) (s.drop (w.length + r))).map (· + (w.length + r))
    else none

def otherTermsWords : List Str :=
  [("other".data), ("terms".data), ("and".data), ("conditions".data), ("apply".data)]

/-- Length of a front match of `\[Click\s+here[^\]]*?\]\([^\)]+\)`
(IGNORECASE): the lazy `[^\]]*?` stops at the first `]`, the greedy
`[^\)]+` runs to the first `)` and needs at least one character. -/
def clickLen (s : Str) : Option Nat :=
  if ciPrefix ("[click".data) s then
    let r := wsRun (s.drop 6)
    if r = 0 then none
    else if ciPrefix ("here".data) (s.drop (6 + r)) then
      let s2 := s.drop (6 + r + 4)
      match findAt ("]".data) s2 with
      | none => none
      | some j =>
        let s3 := s2.drop (j + 1)
        if ("(".data).isPrefixOf s3 then
          match findAt (")".data) (s3.drop 1) with
          | none => none
          | some k => if k = 0 then none else some (6 + r + 4 + j + 1 + 1 + k + 1)
        else none
    else none
  else none

/-- Length of a front match of
`Other\s+terms\s+and\s+conditions\s+apply[^.]*?\.?\s*(?:\[Click\s+here[^\]]*?\]\([^\)]+\))?`
(IGNORECASE, DOTALL).  Everything after `apply` is nullable, so the lazy
`[^.]*?` stays empty in the first successful parse; the greedy `\.?`
takes an immediately following dot, `\s*` takes the whitespace run, and
the optional link is taken exactly when it starts right after. -/
def otherTermsLen (s : Str) : Option Nat :=
  match wordSeqLen otherTermsWords s with
  | none => none
  | some n =>
    let n1 := if (".".data).isPrefixOf (s.drop n) then n + 1 else n
    let n2 := n1 + wsRun (s.drop n1)
    match clickLen (s.drop n2) with
    | some m => some (n2 + m)
    | none => some n2

/-- Leftmost occurrence of the `Other terms…` tail pattern: offset and
length (the `.*?` prefix of the source pattern makes the search leftmost
and the match start at 0, so only the core's position matters). -/
def scanOtherTerms : Str → Option (Nat × Nat)
  | [] => none
  | c :: t =>
    match otherTermsLen (c :: t) with
    | some n => some (0, n)
    | none => (scanOtherTerms t).map (fun p => (p.1 + 1, p.2))

/-- Leftmost occurrence of the click-link pattern. -/
def scanClick : Str → Option (Nat × Nat)
  | [] => none
  | c :: t =>
    match clickLen (c :: t) with
    | some n => some (0, n)
    | none => (scanClick t).map (fun p => (p.1 + 1, p.2))

/-- End offset of the leftmost match of `.*?\.\s*(?:\n|$)` (DOTALL, no
MULTILINE): a dot whose following whitespace run reaches the end of the
string, or — taking the largest backtracking extent first — whose run
contains a newline, which the match then consumes. -/
def scanSentEnd : Str → Option Nat
  | [] => none
  | c :: t =>
    if c = '.' then
      let r := wsRun t
      if r = t.length then some (1 + r)
      else
        match lastNlIdx (t.take r) with
        | some k => some (1 + k + 1)
        | none => (scanSentEnd t).map (· + 1)
    else (scanSentEnd t).map (· + 1)

/-- End offset of the leftmost match of `.*?\.\s+.*?\.\s*(?:\n|$)`: a dot
followed by at least one whitespace character and then a sentence end as
in `scanSentEnd` (the greedy `\s+` and the lazy `.*?` meet at the same
first dot because a dot is not whitespace). -/
def scanTwoSent : Str → Option Nat
  | [] => none
  | c :: t =>
    if c = '.' then
      let r := wsRun t
      if r = 0 then (scanTwoSent t).map (· + 1)
      else
        match scanSentEnd (t.drop r) with
        | some e => some (1 + r + e)
        | none => (scanTwoSent t).map (· + 1)
    else (scanTwoSent t).map (· + 1)

/-- First line length, `len(after_text.split('\n')[0])`. -/
def firstLineLen (s : Str) : Nat := (s.takeWhile (fun c => c ≠ '\n')).length

/-- The generic-disclaimer branch (lines 262-328): returns the
`(start_pos, end_pos, preserved_text)` triple for the splice. -/
def genericSplice (content : Str) (feePos searchStart : Nat) : Nat × Nat × Str :=
  let anPos :=
    (pyFind ("an annual enhancement fee applies".data) (toLowerStr content) searchStart).getD
      feePos
  let startPos := startFrom content anPos false
  let afterText := sl content anPos (anPos + 300)
  match scanOtherTerms afterText with
  | some tn =>
    let g0 := afterText.take (tn.1 + tn.2)
    match scanOtherTerms g0 with
    | some p =>
      let preserved := sl g0 p.1 (p.1 + p.2)
      (startPos, anPos + ((findAt preserved g0).getD 0), ("\n\n".data) ++ pyStrip preserved)
    | none => (startPos, anPos + (tn.1 + tn.2), [])
  | none =>
    match scanClick afterText with
    | some tn =>
      let g0 := afterText.take (tn.1 + tn.2)
      match scanClick g0 with
      | some p =>
        let preserved := sl g0 p.1 (p.1 + p.2)
        (startPos, anPos + ((findAt preserved g0).getD 0), ("\n\n".data) ++ pyStrip preserved)
      | none => (startPos, anPos + (tn.1 + tn.2), [])
    | none =>
      match scanSentEnd afterText with
      | some e1 =>
        match scanTwoSent afterText with
        | some e2 => (startPos, anPos + e2, [])
        | none => (startPos, anPos + e1, [])
      | none =>
        if containsSub ("\n".data) afterText then
          (startPos, anPos + firstLineLen afterText, [])
        else (startPos, afterText.length, [])

/-- The routing test of lines 330-340: the legacy branch is skipped (the
function returns `False`) when `$49.99` is absent or too far after the
anchor and `$89.98` is also absent from the 500-character window. -/
def legacyAbsent (content : Str) (feePos : Nat) : Bool :=
  match pyFind ("$49.99".data) content feePos with
  | none => !(containsSub ("$89.98".data) (sl content feePos (feePos + 500)))
  | some a =>
    if feePos + 500 < a then !(containsSub ("$89.98".data) (sl content feePos (feePos + 500)))
    else false

/-- The lookahead of the legacy end search (line 371):
`(?=\s+Other\s+terms\s+and\s+conditions\s+apply|\[Click\s+here|\n\n#|\Z)`
(IGNORECASE). -/
def legacyStop (s : Str) : Bool :=
  (wsRun s ≠ 0 && (wordSeqLen otherTermsWords (s.drop (wsRun s))).isSome)
    || (ciPrefix ("[click".data) s
        && (wsRun (s.drop 6) ≠ 0 && ciPrefix ("here".data) (s.drop (6 + wsRun (s.drop 6)))))
    || ("\n\n#".data).isPrefixOf s
    || s.isEmpty

/-- First offset where the legacy lookahead holds (`\Z` always does at the
end, so the search is total and the source's `else` fallback of lines
403-426 is unreachable). -/
def scanLegacyStop : Str → Nat
  | [] => 0
  | c :: t => if legacyStop (c :: t) then 0 else scanLegacyStop t + 1

/-- Preserved-fragment search of lines 380-384 and 392-396: the leftmost
match of the `Other terms…` tail or of the click link (in that alternation
order) within the 100-character window after the end point. -/
def scanPreserved : Str → Option (Nat × Nat)
  | [] => none
  | c :: t =>
    match otherTermsLen (c :: t) with
    | some n => some (0, n)
    | none =>
      match clickLen (c :: t) with
      | some n => some (0, n)
      | none => (scanPreserved t).map (fun p => (p.1 + 1, p.2))

/-- The common tail of the legacy branch: look for a preserved fragment in
the 100 characters after the end point `q` and extend the end past it. -/
def legacyPreserve (startPos feePos : Nat) (remaining : Str) (q : Nat) : Nat × Nat × Str :=
  let afterT := sl remaining q (q + 100)
  match scanPreserved afterT with
  | some p =>
    (startPos, feePos + q + (p.1 + p.2), ("\n\n".data) ++ pyStrip (sl afterT p.1 (p.1 + p.2)))
  | none => (startPos, feePos + q, [])

/-- The legacy-detailed branch (lines 342-430): determine the start from
the labels or line start, scan to the lookahead, and when the matched
span lacks the credit-card clause extend it to past the first `$2.99`
(the extension's lazy `.*?` skips anything before `$2.99`, including an
`Other terms…` trailer). -/
def legacySplice (content : Str) (feePos : Nat) : Nat × Nat × Str :=
  let startPos := startFrom content feePos true
  let remaining := content.drop feePos
  let q := scanLegacyStop remaining
  let matched := remaining.take q
  if containsSub ("$2.99".data) matched
      || containsSub ("credit card".data) (toLowerStr matched)
      || containsSub ("debit card".data) (toLowerStr matched) then
    legacyPreserve startPos feePos remaining q
  else
    match pyFind ("$2.99".data) remaining 0 with
    | some i2 => legacyPreserve startPos feePos remaining (i2 + 5 + scanLegacyStop (remaining.drop (i2 + 5)))
    | none => (startPos, feePos + q, [])

/-- The generic-pattern test of lines 252-261: `applies` co-occurs with
the anchor phrase in the window and none of the legacy dollar literals
appear there. -/
def genericCond (content : Str) (feePos : Nat) : Bool :=
  let remainingText := sl content (feePos - 50) (feePos + 400)
  (containsSub ("applies".data) (toLowerStr remainingText)
      && containsSub ("annual enhancement fee".data) (toLowerStr remainingText))
    && !(containsSub ("$49.99".data) remainingText
      || containsSub ("$89.98".data) remainingText
      || containsSub ("$2.99".data) remainingText)

/-- The branch taken once the anchor has been found at `feePos`. -/
def feeBranch (content : Str) (feePos : Nat) : Bool × Str :=
  if genericCond content feePos then
    match genericSplice content feePos (feePos - 50) with
    | (s, e, p) => (true, spliceAt content s e p)
  else if legacyAbsent content feePos then (false, content)
  else
    match legacySplice content feePos with
    | (s, e, p) => (true, spliceAt content s e p)

/-- The source's `replace_enhancement_fee_text` on the in-memory text:
`(success flag, final text)`. -/
def replace_enhancement_fee_text (content : Str) : Bool × Str :=
  if hasBothSignatures content then (true, content)
  else
    match pyFind ("annual enhancement fee".data) (toLowerStr content) 0 with
    | none => (false, content)
    | some feePos => feeBranch content feePos
theorem containsSub_of_isPrefixOf {x s : Str} (h : x.isPrefixOf s = true) :
    containsSub x s = true := by
  cases s with
  | nil => rw [containsSub]; exact h
  | cons c t => rw [containsSub]; simp [h]

theorem containsSub_cons {x t : Str} (c : Char) (h : containsSub x t = true) :
    containsSub x (c :: t) = true := by
  rw [containsSub]; simp [h]

theorem containsSub_append_left {x t : Str} (s : Str) (h : containsSub x t = true) :
    containsSub x (s ++ t) = true := by
  induction s with
  | nil => exact h
  | cons c s ih => rw [List.cons_append]; exact containsSub_cons c ih

theorem containsSub_append_right {x : Str} (t : Str) :
    ∀ {s : Str}, containsSub x s = true → containsSub x (s ++ t) = true := by
  intro s
  induction s with
  | nil =>
    intro h
    rw [containsSub] at h
    have hx : x = [] := by
      cases x with
      | nil => rfl
      | cons a b => simp [List.isPrefixOf] at h
    subst hx
    rw [List.nil_append]
    cases t with
    | nil => rfl
    | cons c u => rw [containsSub]; simp

  | cons c s ih =>
    intro h
    rw [containsSub] at h
    rw [List.cons_append, containsSub]
    have h2 : x.isPrefixOf (c :: s) = true ∨ containsSub x s = true := by
      simpa using h
    rcases h2 with h2 | h2
    · rw [List.isPrefixOf_iff_prefix] at h2
      have h3 : x <+: (c :: s) ++ t := h2.trans (List.prefix_append _ t)
      rw [← List.isPrefixOf_iff_prefix] at h3
      rw [List.cons_append] at h3
      simp [h3]
    · simp [ih h2]

theorem hasBoth_spliceAt (c : Str) (s e : Nat) (p : Str) :
    hasBothSignatures (spliceAt c s e p) = true := by
  have h1 : containsSub ("$49.95 for the first member".data)
      (newEnhancementFeeText.data) = true := by decide
  have h2 : containsSub ("$89.95 for all memberships".data)
      (newEnhancementFeeText.data) = true := by decide
  rw [hasBothSignatures, spliceAt, Bool.and_eq_true]
  exact ⟨containsSub_append_left _ (containsSub_append_right _ (containsSub_append_right _ h1)),
    containsSub_append_left _ (containsSub_append_right _ (containsSub_append_right _ h2))⟩

theorem feeText_already {d : Str} (h : hasBothSignatures d = true) :
    replace_enhancement_fee_text d = (true, d) := by
  rw [replace_enhancement_fee_text, if_pos h]

/-- Every run of `replace_enhancement_fee_text` either leaves the text
unchanged or produces a text that passes the already-current test (the
spliced-in canonical paragraph contains both signature substrings). -/
theorem feeText_snd_spec (d : Str) :
    (replace_enhancement_fee_text d).2 = d
      ∨ hasBothSignatures (replace_enhancement_fee_text d).2 = true := by
  rw [replace_enhancement_fee_text]
  by_cases hb : hasBothSignatures d = true
  · rw [if_pos hb]; exact Or.inl rfl
  · rw [if_neg hb]
    cases hf : pyFind ("annual enhancement fee".data) (toLowerStr d) 0 with
    | none => exact Or.inl rfl
    | some feePos =>
      show (feeBranch d feePos).2 = d ∨ hasBothSignatures (feeBranch d feePos).2 = true
      rw [feeBranch]
      by_cases hg : genericCond d feePos = true
      · rw [if_pos hg]
        rcases hsp : genericSplice d feePos (feePos - 50) with ⟨s, e, p⟩
        exact Or.inr (hasBoth_spliceAt d s e p)
      · rw [if_neg hg]
        by_cases hl : legacyAbsent d feePos = true
        · rw [if_pos hl]; exact Or.inl rfl
        · rw [if_neg hl]
          rcases hsp : legacySplice d feePos with ⟨s, e, p⟩
          exact Or.inr (hasBoth_spliceAt d s e p)

/-- Claim C1: the fee-disclaimer splice is idempotent — a second
application returns the same final text — and a document that already
contains both signature substrings of the canonical text is reported as
success and left unchanged. -/
theorem claim_C1 (d : Str) :
    (replace_enhancement_fee_text (replace_enhancement_fee_text d).2).2
        = (replace_enhancement_fee_text d).2
      ∧ (hasBothSignatures d = true → replace_enhancement_fee_text d = (true, d)) := by
  constructor
  · rcases feeText_snd_spec d with h | h
    · rw [h]; exact h
    · rw [feeText_already h]
  · exact fun h => feeText_already h

/-- The C2 failing input: a legacy-form disclaimer whose `Other terms and
conditions apply.` trailer comes before the `$2.99` credit-card sentence. -/
def claimC2doc : Str :=
  ("Annual enhancement fee of $49.99 first member and $89.98 family. Other terms and conditions apply. More about the $2.99 credit card fee.".data)

/-- Claim C2 (code bug): on `claimC2doc` the splice succeeds, the input
contains the `Other terms and conditions apply` trailer, and the output
does not — the legacy branch's `$2.99` extension (lines 389-398) skips
past the trailer and deletes it instead of re-appending it. -/
theorem claim_C2 :
    (replace_enhancement_fee_text claimC2doc).1 = true
      ∧ containsSub ("Other terms and conditions apply".data) claimC2doc = true
      ∧ containsSub ("Other terms and conditions apply".data)
          (replace_enhancement_fee_text claimC2doc).2 = false := by decide
/-!
ClubMatcher: `build_club_mapping` (dynamic_pricing.py lines 445-508) with
its two override tables and the two filename adapters (lines 30-60).
Files are modelled by their stems, as the source uses `Path.stem`.
-/

def special_mappings : List (Str × Str) :=
  [(("sports complex".data), ("rocklin east".data)),
   (("east arden".data), ("carmichael arden".data)),
   (("madison".data), ("madison i 80".data)),
   (("sunrise".data), ("sunrise hwy 50".data)),
   (("modesto mchenry".data), ("modesto mchenry north".data)),
   (("suisun".data), ("suisun city".data)),
   (("turlock".data), ("turlock monte vista".data)),
   (("vallejo lincoln rd".data), ("vallejo lincoln road".data)),
   (("victorville".data), ("victorville north".data)),
   (("visalia mooney".data), ("visalia mooney north".data))]

def multi_mappings : List (Str × List Str) :=
  [(("midtown".data), [("midtown".data), ("downtown".data)])]

/-- `extract_club_name_from_txt`: strip a `CFF__`/`In-Shape__` tag (anchored,
case-sensitive, at most once) and turn underscores into spaces. -/
def extract_club_name_from_txt (stem : Str) : Str :=
  (if ("CFF__".data).isPrefixOf stem then stem.drop 5
   else if ("In-Shape__".data).isPrefixOf stem then stem.drop 10
   else stem).map (fun c => if c = '_' then ' ' else c)

/-- `re.sub(r'_clean$', '', s)`: the `$` may also match before a final
newline (never the case for a path stem, kept for fidelity). -/
def stripCleanTag (s : Str) : Str :=
  if ("_clean".data).isSuffixOf s then s.take (s.length - 6)
  else if ("_clean\n".data).isSuffixOf s then s.take (s.length - 7) ++ ("\n".data)
  else s

/-- Length of a front match of `WORD\d+` (`-california-\d+` / `-ca-\d+`),
with a maximal, non-empty digit run. -/
def caliMatchLen (w s : Str) : Option Nat :=
  if w.isPrefixOf s then
    let d := digRun (s.drop w.length)
    if d = 0 then none else some (w.length + d)
  else none

/-- One pass of `re.sub` for the state-zip patterns of
`extract_club_name_from_md` (all non-overlapping leftmost matches). -/
def subCaliF (w : Str) : Nat → Str → Str
  | 0, s => s
  | _ + 1, [] => []
  | f + 1, c :: t =>
    match caliMatchLen w (c :: t) with
    | some n => subCaliF w f (t.drop (n - 1))
    | none => c :: subCaliF w f t

def subCali (w s : Str) : Str := subCaliF w s.length s

/-- `extract_club_name_from_md` (dynamic_pricing.py lines 44-60). -/
def extract_club_name_from_md (stem : Str) : Str :=
  let a := if ("www.inshape.com_gyms_".data).isPrefixOf stem then stem.drop 21 else stem
  let b := stripCleanTag a
  let c := subCali ("-ca-".data) (subCali ("-california-".data) b)
  (c.map (fun ch => if ch = '-' then ' ' else ch)).map (fun ch => if ch = '_' then ' ' else ch)

/-- The `md_name_map` association (lines 473-478): normalized name to
file; a Python dict assignment overwrites, so lookups take the last
binding. -/
def mdNameMap (mds : List Str) : List (Str × Str) :=
  mds.map (fun m => (normalize_club_name (extract_club_name_from_md m), m))

def lookupMd (mp : List (Str × Str)) (k : Str) : Option Str :=
  ((mp.filter (fun p => p.1 == k)).getLast?).map (fun p => p.2)

def assocFind (mp : List (Str × Str)) (k : Str) : Option Str :=
  (mp.find? (fun p => p.1 == k)).map (fun p => p.2)

def assocFindL (mp : List (Str × List Str)) (k : Str) : Option (List Str) :=
  (mp.find? (fun p => p.1 == k)).map (fun p => p.2)

/-- The per-file resolution cascade of lines 485-506: the one-to-many
override first (partial success allowed, empty resolution drops the
file), then direct equality, then the single-alias table. -/
def resolveIdentity (mp : List (Str × Str)) (n : Str) : Option (List Str) :=
  match assocFindL multi_mappings n with
  | some targets =>
    let fs := targets.filterMap (lookupMd mp)
    if fs = [] then none else some fs
  | none =>
    match lookupMd mp n with
    | some f => some [f]
    | none =>
      match assocFind special_mappings n with
      | some sp => (lookupMd mp sp).map (fun f => [f])
      | none => none

def matchOne (mp : List (Str × Str)) (txtStem : Str) : Option (List Str) :=
  resolveIdentity mp (normalize_club_name (extract_club_name_from_txt txtStem))

/-- The source's `build_club_mapping` over the text-file and markdown-file
stems: unmatched files are dropped with a warning, never an error. -/
def build_club_mapping (txts mds : List Str) : List (Str × List Str) :=
  txts.filterMap (fun t => (matchOne (mdNameMap mds) t).map (fun fs => (t, fs)))

/-- Claim C7: a text file whose identity is the `midtown` key of the
one-to-many override resolves each target against the document map,
skips targets with no document, and still maps to the reduced list when
at least one target resolves — here, only `downtown` present yields the
single-element mapping. -/
theorem claim_C7 (txts mds : List Str) (txt doc : Str)
    (hmem : txt ∈ txts)
    (hid : normalize_club_name (extract_club_name_from_txt txt) = ("midtown".data))
    (hdown : lookupMd (mdNameMap mds) ("downtown".data) = some doc)
    (hmid : lookupMd (mdNameMap mds) ("midtown".data) = none) :
    (txt, [doc]) ∈ build_club_mapping txts mds := by
  rw [build_club_mapping, List.mem_filterMap]
  refine ⟨txt, hmem, ?_⟩
  rw [matchOne, hid, resolveIdentity]
  have hm : assocFindL multi_mappings ("midtown".data)
      = some [("midtown".data), ("downtown".data)] := by decide
  rw [hm]
  simp only [List.filterMap_cons, hmid, hdown]
  rfl

/-- Witness for claim C7 at a concrete corpus. -/
theorem claim_C7_witness :
    ((("Midtown".data), [("www.inshape.com_gyms_downtown_clean".data)]) ∈
      build_club_mapping [("Midtown".data)]
        [("www.inshape.com_gyms_downtown_clean".data)]) :=
  claim_C7 _ _ _ _ (List.mem_cons_self _ _) (by decide) (by decide) (by decide)
/-!
ClubFileSplitter: `split_club_sections` (split_club_files.py lines 50-98).
The file's lines are the `readlines()` output with the per-line
`rstrip('\n')` applied; the loop state is the current club header and its
collected content lines.
-/

def sep80 : Str := List.replicate 80 '='

def hdrTag : Str := ("Club Name: ".data)

/-- The `if current_club and current_content` save of lines 68-72 and
85-89 (the header line is never empty, so `current_club` is truthy
exactly when present). -/
def flushCur (cur : Option (Str × List Str)) (acc : List (Str × List Str)) :
    List (Str × List Str) :=
  match cur with
  | some nc => if nc.2 ≠ [] then acc ++ [nc] else acc
  | none => acc

/-- The line loop of lines 62-89. -/
def splitAux : List Str → Option (Str × List Str) → List (Str × List Str) →
    List (Str × List Str)
  | [], cur, acc => flushCur cur acc
  | l :: ls, cur, acc =>
    if hdrTag.isPrefixOf l then splitAux ls (some (l, [l])) (flushCur cur acc)
    else
      match cur with
      | some nc =>
        if l = sep80 then splitAux ls (some nc) acc
        else splitAux ls (some (nc.1, nc.2 ++ [l])) acc
      | none => splitAux ls none acc

def splitClubSectionsLines (lines : List Str) : List (Str × List Str) :=
  splitAux lines none []

/-- Model of `readlines()` followed by `rstrip('\n')` on each line:
split at newlines, dropping the empty fragment a trailing newline leaves. -/
def splitNl : Str → List Str
  | [] => [[]]
  | c :: t =>
    if c = '\n' then [] :: splitNl t
    else
      match splitNl t with
      | [] => [[c]]
      | l :: ls => (c :: l) :: ls

def readLines (text : Str) : List Str :=
  if text = [] then []
  else
    let ls := splitNl text
    if ls.getLast? = some [] then ls.dropLast else ls

/-- The source's `split_club_sections` on the file text: each section is
its header line paired with its content, the collected lines joined by
newlines. -/
def split_club_sections (text : Str) : List (Str × Str) :=
  (splitClubSectionsLines (readLines text)).map
    (fun p => (p.1, List.intercalate ("\n".data) p.2))

theorem splitAux_good
    (P : Str × List Str → Prop)
    (hP : ∀ s, s.2.head? = some s.1 → hdrTag.isPrefixOf s.1 = true → sep80 ∉ s.2 → P s) :
    ∀ (lines : List Str) (cur : Option (Str × List Str)) (acc : List (Str × List Str)),
      (∀ s ∈ acc, P s) →
      (∀ nc, cur = some nc →
        nc.2.head? = some nc.1 ∧ hdrTag.isPrefixOf nc.1 = true ∧ sep80 ∉ nc.2) →
      ∀ s ∈ splitAux lines cur acc, P s := by
  have hflush : ∀ cur acc,
      (∀ s ∈ acc, P s) →
      (∀ nc, cur = some nc →
        nc.2.head? = some nc.1 ∧ hdrTag.isPrefixOf nc.1 = true ∧ sep80 ∉ nc.2) →
      ∀ s ∈ flushCur cur acc, P s := by
    intro cur acc hacc hcur s hs
    match cur with
    | none => exact hacc s hs
    | some nc =>
      rw [flushCur] at hs
      by_cases hne : nc.2 ≠ []
      · rw [if_pos hne] at hs
        rcases List.mem_append.1 hs with h | h
        · exact hacc s h
        · obtain ⟨h1, h2, h3⟩ := hcur nc rfl
          rw [List.mem_singleton] at h
          subst h
          exact hP s h1 h2 h3
      · rw [if_neg hne] at hs
        exact hacc s hs
  intro lines
  induction lines with
  | nil => intro cur acc hacc hcur; exact hflush cur acc hacc hcur
  | cons l ls ih =>
    intro cur acc hacc hcur s hs
    simp only [splitAux] at hs
    by_cases hhdr : hdrTag.isPrefixOf l = true
    · rw [if_pos hhdr] at hs
      refine ih (some (l, [l])) (flushCur cur acc) (hflush cur acc hacc hcur) ?_ s hs
      intro nc hnc
      cases hnc
      refine ⟨rfl, hhdr, ?_⟩
      rw [List.mem_singleton]
      intro hsep
      have hfalse : hdrTag.isPrefixOf sep80 = false := by decide
      rw [← hsep] at hhdr
      rw [hhdr] at hfalse
      simp at hfalse
    · rw [if_neg hhdr] at hs
      match cur, hcur, hs with
      | none, _, hs => exact ih none acc hacc (fun nc h => by cases h) s hs
      | some nc, hcur, hs =>
        dsimp only [] at hs
        obtain ⟨h1, h2, h3⟩ := hcur nc rfl
        by_cases hsep : l = sep80
        · rw [if_pos hsep] at hs
          exact ih (some nc) acc hacc (fun nc2 h => by cases h; exact ⟨h1, h2, h3⟩) s hs
        · rw [if_neg hsep] at hs
          refine ih (some (nc.1, nc.2 ++ [l])) acc hacc ?_ s hs
          intro nc2 h
          cases h
          refine ⟨?_, h2, ?_⟩
          · match nc, h1 with
            | (n, c :: cs), h1 => simpa using h1
          · intro hmem
            rcases List.mem_append.1 hmem with h | h
            · exact h3 h
            · rw [List.mem_singleton] at h
              exact hsep h.symm

/-- The splitter ignores everything before the first header line. -/
theorem splitClubSectionsLines_dropWhile (lines : List Str) :
    splitClubSectionsLines lines
      = splitClubSectionsLines (lines.dropWhile (fun l => !(hdrTag.isPrefixOf l))) := by
  induction lines with
  | nil => rfl
  | cons l ls ih =>
    rw [List.dropWhile_cons]
    by_cases hhdr : hdrTag.isPrefixOf l = true
    · rw [if_neg (by simp [hhdr])]
    · rw [if_pos (by simp [hhdr])]
      rw [← ih, splitClubSectionsLines, splitAux, if_neg hhdr]
      rfl

theorem interNlCons (a b : Str) (t : List Str) :
    List.intercalate ("\n".data) (a :: b :: t)
      = a ++ '\n' :: List.intercalate ("\n".data) (b :: t) := by
  simp [List.intercalate, List.intersperse]

/-- Claim C10: every section of the splitter starts with its own
`Club Name: ` header line, contains no 80-character `=` separator line,
and the lines before the first header line are discarded (splitting a
line list equals splitting its suffix from the first header); at the
text level each section content is its header alone or its header
followed by a newline and the rest. -/
theorem claim_C10 :
    (∀ (lines : List Str), ∀ s ∈ splitClubSectionsLines lines,
        s.2.head? = some s.1 ∧ hdrTag.isPrefixOf s.1 = true ∧ sep80 ∉ s.2)
      ∧ (∀ (lines : List Str),
          splitClubSectionsLines lines
            = splitClubSectionsLines (lines.dropWhile (fun l => !(hdrTag.isPrefixOf l))))
      ∧ (∀ (text : Str), ∀ s ∈ split_club_sections text,
          s.2 = s.1 ∨ ∃ r, s.2 = s.1 ++ '\n' :: r) := by
  have hmain : ∀ (lines : List Str), ∀ s ∈ splitClubSectionsLines lines,
      s.2.head? = some s.1 ∧ hdrTag.isPrefixOf s.1 = true ∧ sep80 ∉ s.2 := by
    intro lines
    exact splitAux_good _ (fun s h1 h2 h3 => ⟨h1, h2, h3⟩) lines none []
      (fun s h => by cases h) (fun nc h => by cases h)
  refine ⟨hmain, splitClubSectionsLines_dropWhile, ?_⟩
  intro text s hs
  rw [split_club_sections, List.mem_map] at hs
  obtain ⟨p, hp, rfl⟩ := hs
  obtain ⟨h1, _, _⟩ := hmain _ p hp
  match p, h1 with
  | (n, c :: cs), h1 =>
    have hc : c = n := by simpa using h1
    subst hc
    cases cs with
    | nil => exact Or.inl (by simp [List.intercalate])
    | cons b t =>
      refine Or.inr ⟨List.intercalate ("\n".data) (b :: t), ?_⟩
      exact interNlCons c b t
/-!
InShapePricingFormatter (inshape_pricing_formatter.py): `clean_price`,
`detect_availability_columns`, `get_program_availability`,
`get_network_clubs` and `process_csv_file`.  The parsed CSV is handed in
as header plus data rows.
-/

structure ClubInfo where
  name : Str
  level : Str
  localName : Str
  localAccess : Str
  elevate : Str

/-- `clean_price` (lines 60-75). -/
def clean_price (v : Str) : Str :=
  if v = [] || pyStrip v = [] || pyStrip v = ("-".data) then ("Not available".data)
  else
    let v2 := pyStrip v
    if v2 = ("$-".data) then ("Not available".data)
    else if v2 = ("$".data) then ("Not available".data)
    else v2

/-- The exact-pattern table of `detect_availability_columns` (lines
116-124), in the dict-literal order. -/
def program_exact_matches : List (Str × List Str) :=
  [(("SILVER SNEAKERS".data), [("silver sneakers".data)]),
   (("ASH - Standard".data), [("ash - standard".data), ("ash standard".data)]),
   (("ASH - Premium".data), [("ash - premium".data), ("ash premium".data)]),
   (("Optum - Classic Core".data), [("optum - classic core".data), ("optum classic core".data)]),
   (("Optum - Premium Elite".data), [("optum - premium elite".data), ("optum premium elite".data)]),
   (("OPTUM RENEW".data), [("optum renew".data), ("optum renew - nfc".data)]),
   (("Peer Fit".data), [("peer fit".data), ("peerfit".data)])]

/-- The per-column match test of lines 141-146 on the lowered header. -/
def headerMatches (hl pat : Str) : Bool :=
  pat == hl || hl == pat
    || (pat ++ (" -".data)).isPrefixOf hl
    || (pat ++ (" ".data)).isPrefixOf hl
    || ((" - ".data) ++ pat).isSuffixOf hl
    || ((" ".data) ++ pat).isSuffixOf hl

/-- The silver-sneakers false-positive guard of lines 148-151. -/
def guardReject (pat hl : Str) : Bool :=
  containsSub ("silver sneakers".data) pat
    && (containsSub ("soccer".data) hl || containsSub ("academy".data) hl)

/-- `detect_availability_columns` (lines 109-155): first matching column
per program, outer loop over columns, inner over the table, skipping
programs already detected. -/
def detect_availability_columns (headers : List Str) : List (Str × Nat) :=
  headers.enum.foldl
    (fun det p =>
      program_exact_matches.foldl
        (fun det pr =>
          if (det.find? (fun q => q.1 == pr.1)).isSome then det
          else if pr.2.any (fun pat =>
              headerMatches (toLowerStr (pyStrip p.2)) pat
                && !(guardReject pat (toLowerStr (pyStrip p.2)))) then
            det ++ [(pr.1, p.1)]
          else det)
        det)
    []

/-- The value test of `get_program_availability` (line 103). -/
def availValueOk (v : Str) : Bool :=
  !v.isEmpty
    && ((containsSub ("$".data) v && v.any isDigit)
      || (!v.isEmpty && !(v == ("-".data))))

/-- `get_program_availability` (lines 90-107). -/
def get_program_availability (rows : List Row) (progs : List (Str × Nat)) :
    List (Str × Str) :=
  progs.map (fun pr =>
    (pr.1,
     if rows.any (fun r => pr.2 < r.length && availValueOk (pyStrip (r.getD pr.2 []))) then
       ("available".data)
     else ("not available".data)))

/-- Row validity and club-name extraction of the reading loop (lines
171-183). -/
def validName (r : Row) : Option Str :=
  if r.length < 15 then none
  else
    let n := pyStrip (r.getD 1 [])
    if n = [] || n = ("Club Name".data) then none else some n

/-- The `all_clubs` dict (lines 186-194): keyed by club id, first row
wins. -/
def allClubs (rows : List Row) : List (Str × ClubInfo) :=
  rows.foldl
    (fun acc r =>
      match validName r with
      | none => acc
      | some _ =>
        if (acc.find? (fun q => q.1 == pyStrip (r.getD 0 []))).isSome then acc
        else acc ++ [(pyStrip (r.getD 0 []),
          {name := pyStrip (r.getD 1 []), level := pyStrip (r.getD 2 []),
           localName := pyStrip (r.getD 3 []), localAccess := pyStrip (r.getD 4 []),
           elevate := pyStrip (r.getD 5 [])})])
    []

/-- The club names in first-appearance order: the keys of
`club_data_by_name` (a `defaultdict` filled in row order). -/
def namesOf (rows : List Row) : List Str := rows.filterMap validName

def keysOf (rows : List Row) : List Str :=
  (namesOf rows).foldl (fun acc n => if n ∈ acc then acc else acc ++ [n]) []

/-- `club_data_by_name[n]`: the valid rows with that club name, in order. -/
def groupOf (rows : List Row) (n : Str) : List Row :=
  rows.filter (fun r => validName r == some n)

/-- Python string comparison: lexicographic by code point (the `≤` of
`List Char` is the lexicographic order on the character order). -/
def strLe (a b : Str) : Bool := decide (a ≤ b)

/-- The emission order of `process_csv_file`: `sorted(club_data_by_name.keys())`. -/
def clubOrder (rows : List Row) : List Str := (keysOf rows).mergeSort strLe

/-- `get_network_clubs` (lines 77-88); its `local_access` and `club_name`
arguments are unused by the source and omitted. -/
def get_network_clubs (localName : Str) (clubs : List (Str × ClubInfo)) : List Str :=
  if localName = [] || localName = ("NA".data) then []
  else
    ((clubs.filterMap
      (fun q => if q.2.localName == localName then some q.2.name else none)).mergeSort strLe)

/-- The last row for a fee type wins (`fee_data[fee_type] = …` overwrites,
lines 227-248). -/
def feeRowFor (grp : List Row) (ft : Str) : Option Row :=
  (grp.filter (fun r => 15 ≤ r.length && (pyStrip (r.getD 6 []) == ft))).getLast?

/-- The Member-Type cells use the raw stripped value (lines 234-237), the
other fee types go through `clean_price` (lines 239-242); a too-short row
falls back to the sentinel. -/
def tierVal (ft : Str) (r : Row) (i : Nat) : Str :=
  if ft = ("Member Type".data) then
    if i < r.length ∧ pyStrip (r.getD i []) ≠ [] then pyStrip (r.getD i [])
    else ("Not available".data)
  else if i < r.length then clean_price (r.getD i [])
  else ("Not available".data)

/-- One pricing-details line (lines 257-261). -/
def formatterFeeLine (ft : Str) (r : Row) : Str :=
  ft ++ (": One Club: ".data) ++ tierVal ft r 12
    ++ (" | Local Network: ".data) ++ tierVal ft r 13
    ++ (" | Lifestyle Network Plus: ".data) ++ tierVal ft r 14

def program_order : List Str :=
  [("SILVER SNEAKERS".data), ("ASH - Standard".data), ("ASH - Premium".data),
   ("Optum - Classic Core".data), ("Optum - Premium Elite".data),
   ("OPTUM RENEW".data), ("Peer Fit".data)]

/-- The availability block (lines 283-295): emitted only when programs
were detected and some ordered program is among them. -/
def availabilityLines (progs : List (Str × Nat)) (avail : List (Str × Str)) : List Str :=
  if progs = [] then []
  else
    let parts := program_order.filterMap (fun prog =>
      if (progs.find? (fun q => q.1 == prog)).isSome then
        some (prog ++ (": ".data)
          ++ (((avail.find? (fun q => q.1 == prog)).map (fun q => q.2)).getD
            ("not available".data)))
      else none)
    if parts = [] then [] else [("Availability:".data), List.intercalate (" | ".data) parts]

/-- One club's output lines (lines 207-298). -/
def clubSection (progs : List (Str × Nat)) (clubs : List (Str × ClubInfo))
    (rows : List Row) (n : Str) : List Str :=
  match groupOf rows n with
  | [] => []
  | first :: rest =>
    let grp := first :: rest
    let localName := pyStrip (first.getD 3 [])
    let elevate := pyStrip (first.getD 5 [])
    [("Club Name: ".data) ++ n, [], ("Pricing Details:".data)]
      ++ fee_types.filterMap (fun ft => (feeRowFor grp ft).map (formatterFeeLine ft))
      ++ [[]]
      ++ [if localName ≠ [] && localName ≠ ("NA".data) then
            ("Network Name: ".data) ++ localName ++ (" (Other Clubs: ".data)
              ++ List.intercalate (", ".data) (get_network_clubs localName clubs)
              ++ (")".data)
          else ("Network Name: Not available (Other Clubs: )".data)]
      ++ [if elevate ≠ [] && pyStrip elevate ∉ [([] : Str), ("NA".data), ("Not available".data)] then
            ("Elevate Offering: ".data) ++ pyStrip elevate
          else ("Elevate Offering: Not available".data)]
      ++ [[]]
      ++ availabilityLines progs (get_program_availability grp progs)
      ++ [sep80, []]

/-- The source's `process_csv_file` on the parsed CSV: clubs are emitted
in `clubOrder rows` — ascending lexicographic order of the raw club-name
string — and the collected lines are joined by newlines. -/
def process_csv_file (headers : List Str) (rows : List Row) : Str :=
  List.intercalate ("\n".data)
    (((clubOrder rows).map
      (clubSection (detect_availability_columns headers) (allClubs rows) rows)).flatten)
theorem mem_foldl_ins {n : Str} :
    ∀ (l acc : List Str),
      (n ∈ l.foldl (fun acc m => if m ∈ acc then acc else acc ++ [m]) acc)
        ↔ n ∈ acc ∨ n ∈ l := by
  intro l
  induction l with
  | nil => intro acc; simp
  | cons m l ih =>
    intro acc
    rw [List.foldl_cons, ih]
    by_cases hm : m ∈ acc
    · rw [if_pos hm]
      have hnm : n = m → n ∈ acc := fun h => h ▸ hm
      simp only [List.mem_cons]
      tauto
    · rw [if_neg hm]
      simp only [List.mem_append, List.mem_singleton, List.mem_cons]
      tauto

theorem mem_keysOf {n : Str} (rows : List Row) :
    n ∈ keysOf rows ↔ n ∈ namesOf rows := by
  rw [keysOf, mem_foldl_ins]
  simp

theorem nodup_foldl_ins :
    ∀ (l acc : List Str), acc.Nodup →
      (l.foldl (fun acc m => if m ∈ acc then acc else acc ++ [m]) acc).Nodup := by
  intro l
  induction l with
  | nil => intro acc h; exact h
  | cons m l ih =>
    intro acc h
    rw [List.foldl_cons]
    by_cases hm : m ∈ acc
    · rw [if_pos hm]; exact ih acc h
    · rw [if_neg hm]
      refine ih _ ?_
      rw [List.nodup_append]
      exact ⟨h, List.nodup_singleton m,
        fun a ha ha2 => hm ((List.mem_singleton.1 ha2) ▸ ha)⟩

theorem nodup_keysOf (rows : List Row) : (keysOf rows).Nodup :=
  nodup_foldl_ins _ _ List.nodup_nil

theorem strLe_trans : ∀ (a b c : Str), strLe a b → strLe b c → strLe a c := by
  intro a b c h1 h2
  simp only [strLe, decide_eq_true_eq] at h1 h2 ⊢
  exact le_trans h1 h2

theorem strLe_total : ∀ (a b : Str), strLe a b || strLe b a := by
  intro a b
  rw [Bool.or_eq_true]
  simp only [strLe, decide_eq_true_eq]
  exact le_total a b

theorem sorted_clubOrder (l : List Str) :
    List.Pairwise (fun a b => strLe a b = true) (l.mergeSort strLe) :=
  List.sorted_mergeSort strLe_trans strLe_total l

/-- Claim C9: `process_csv_file` emits per-club sections in the order
`clubOrder rows`, which is sorted ascending in the lexicographic order on
the raw club-name strings and depends only on the multiset of data rows —
permuting the CSV's rows leaves the emission order unchanged. -/
theorem claim_C9 (rows rows2 : List Row) (hperm : rows.Perm rows2) :
    List.Pairwise (fun a b : Str => strLe a b = true) (clubOrder rows)
      ∧ clubOrder rows = clubOrder rows2 := by
  refine ⟨sorted_clubOrder _, ?_⟩
  have hnames : (namesOf rows).Perm (namesOf rows2) := hperm.filterMap _
  have hk : (keysOf rows).Perm (keysOf rows2) := by
    rw [List.perm_ext_iff_of_nodup (nodup_keysOf rows) (nodup_keysOf rows2)]
    intro a
    rw [mem_keysOf, mem_keysOf]
    exact hnames.mem_iff
  haveI : IsAntisymm Str (fun a b => strLe a b = true) :=
    ⟨fun a b h1 h2 => by
      simp only [strLe, decide_eq_true_eq] at h1 h2
      exact le_antisymm h1 h2⟩
  exact List.eq_of_perm_of_sorted
    ((List.mergeSort_perm _ _).trans (hk.trans (List.mergeSort_perm _ _).symm))
    (sorted_clubOrder _) (sorted_clubOrder _)

def c9row (cid nm : Str) : Row :=
  [cid, nm, [], [], [], [], ("Main Dues MTM".data), [], [], [], [], [],
   ("$1".data), ("$2".data), ("$3".data)]

/-- Witness for claim C9 on a concrete two-row CSV given in both orders. -/
theorem claim_C9_witness :
    List.Pairwise (fun a b : Str => strLe a b = true)
        (clubOrder [c9row ("1".data) ("B".data), c9row ("2".data) ("A".data)])
      ∧ clubOrder [c9row ("1".data) ("B".data), c9row ("2".data) ("A".data)]
        = clubOrder [c9row ("2".data) ("A".data), c9row ("1".data) ("B".data)] :=
  claim_C9 _ _ (List.Perm.swap _ _ _)
